import Mathlib

/-!
Serial: line-oriented serial-port helpers over Boost.Asio.

A shallow embedding of `src/serial.hpp` and `src/main.cpp`.

The functions of the `Serial` namespace are thin wrappers around three library
calls (`serial_port::open`, `boost::asio::read_until`, `boost::asio::write`) and two
operating-system enumeration interfaces.  The wrappers are translated statement by
statement.  The library and the operating system are the environment; they are
modelled explicitly and the model is kept separate from the wrappers:

* a `std::string` is a list of characters (`Bytes`);
* a `boost::system::error_code` local that may or may not be set is an
  `Option ErrorCode` (`none` is the "no error" value, `if (err)` is `isSome`);
* `std::expected<T, error_code>` is `Except ErrorCode T`;
* the transport behind a port is a pair of scripts: what successive `read_some`
  calls will deliver and how successive `write_some` calls will be answered;
* a call that never returns (a blocking read on a silent line) is `none`.
-/

namespace Serial

/-! ## Data model -/

deriving instance DecidableEq for Except

/-- The contents of a `std::string`. -/
abbrev Bytes := List Char

/-- The delimiter passed to `read_until` by `readFromSerialPort`. -/
def delim : Char := '\n'

/-- The two error categories the model distinguishes. -/
inductive Category
  | system
  | misc
deriving DecidableEq, Repr

/-- A `boost::system::error_code` that tests true in `if (err)`. -/
structure ErrorCode where
  category : Category
  value : Nat
deriving DecidableEq, Repr

/-- The code `boost::asio::error::bad_descriptor` (EBADF): what `read_some` and
`write_some` report on a serial port that holds no handle. -/
def bad_descriptor : ErrorCode := ⟨.system, 9⟩

/-- The code reported by the operating system when the named device does not
exist (ENOENT). -/
def no_such_file_or_directory : ErrorCode := ⟨.system, 2⟩

/-- The code reported when access to a device or directory is denied (EACCES). -/
def permission_denied : ErrorCode := ⟨.system, 13⟩

/-- The code reported for a device claimed elsewhere (EBUSY). -/
def device_or_resource_busy : ErrorCode := ⟨.system, 16⟩

/-- The code `boost::asio::error::already_open`. -/
def already_open : ErrorCode := ⟨.misc, 1⟩

/-- The code `boost::asio::error::eof`. -/
def eof : ErrorCode := ⟨.misc, 2⟩

/-- One answer of the transport to `read_some`: some bytes, or an error. -/
inductive ReadEvent
  | data (chunk : Bytes)
  | fault (ec : ErrorCode)
deriving DecidableEq, Repr

/-- One answer of the transport to `write_some`: it takes at most `n` of the
bytes offered, or it reports an error (and takes nothing). -/
inductive WriteEvent
  | accept (n : Nat)
  | fault (ec : ErrorCode)
deriving DecidableEq, Repr

/-- A `boost::asio::serial_port` together with the transport behind it.
`isOpen` is `is_open()`; `rx` and `tx` are the transport scripts; `sent` records
every byte the transport has accepted, in order. -/
structure Port where
  isOpen : Bool
  rx : List ReadEvent
  tx : List WriteEvent
  sent : Bytes
deriving DecidableEq, Repr

/-- A device node known to the operating system. -/
structure Device where
  name : Bytes
  openError : Option ErrorCode
  rx : List ReadEvent
  tx : List WriteEvent
deriving DecidableEq, Repr

/-- The operating system as seen through `io_context`: the devices that exist,
the number of serial handles the process holds, and the number of handles it has
released so far. -/
structure Backend where
  devices : List Device
  held : Nat
  released : Nat
deriving DecidableEq, Repr

/-! ## The library calls used by the wrappers -/

/-- The index just past the first delimiter of `buf`: the value `read_until`
returns on success. -/
def delimEnd : Bytes → Nat
  | [] => 0
  | c :: cs => if c = delim then 1 else delimEnd cs + 1

/-- The call `boost::asio::read_until(port, buf, delim, err)` on a dynamic buffer
without a size limit: search the buffer; if the delimiter is there, stop; otherwise
append what one `read_some` delivers and search again.  On a port that holds no
handle `read_some` reports `bad_descriptor`.  Returns the byte count reported by
the library (the length up to and including the first delimiter, 0 on error), the
error code, the buffer and the remaining script; `none` when the script is
exhausted before the loop ends (the call blocks).  The size of each chunk is the
choice of the transport; the upper bound the library puts on one request is not
modelled. -/
def read_until (isOpen : Bool) :
    List ReadEvent → Bytes → Option (Nat × Option ErrorCode × Bytes × List ReadEvent)
  | rx, buf =>
    if delim ∈ buf then some (delimEnd buf, none, buf, rx)
    else if !isOpen then some (0, some bad_descriptor, buf, rx)
    else
      match rx with
      | [] => none
      | .fault ec :: rest => some (0, some ec, buf, rest)
      | .data chunk :: rest => read_until isOpen rest (buf ++ chunk)

/-- The call `boost::asio::write(port, buffer(msg), err)`: while bytes remain,
offer them to `write_some`; stop at the first error.  A message without bytes
leads to no `write_some` call at all.  On a port that holds no handle `write_some`
reports `bad_descriptor`.  Returns the error code, the bytes the transport accepted
and the remaining script.  Once the script is exhausted the transport takes
everything it is offered.  The upper bound the library puts on one request is
covered by the number of bytes an `accept` answer takes. -/
def write (isOpen : Bool) : List WriteEvent → Bytes → Option ErrorCode × Bytes × List WriteEvent
  | tx, rest =>
    if rest = [] then (none, [], tx)
    else if !isOpen then (some bad_descriptor, [], tx)
    else
      match tx with
      | [] => (none, rest, [])
      | .fault ec :: tx1 => (some ec, [], tx1)
      | .accept n :: tx1 =>
        let r := write isOpen tx1 (rest.drop n)
        (r.1, rest.take n ++ r.2.1, r.2.2)

/-- A default-constructed `serial_port device(ctx)`: no handle, no transport. -/
def closedPort : Port := { isOpen := false, rx := [], tx := [], sent := [] }

/-- The call `device.open(name, err)`: fails on a port that is already open, on a
name that refers to no device, and when the operating system refuses the device;
otherwise the port holds a fresh handle to the device. -/
def serial_port_open (device : Port) (name : Bytes) (ctx : Backend) :
    Option ErrorCode × Port × Backend :=
  if device.isOpen then (some already_open, device, ctx)
  else
    match ctx.devices.find? (fun d => d.name == name) with
    | none => (some no_such_file_or_directory, device, ctx)
    | some d =>
      match d.openError with
      | some ec => (some ec, device, ctx)
      | none =>
        (none, { isOpen := true, rx := d.rx, tx := d.tx, sent := [] },
         { ctx with held := ctx.held + 1 })

/-- The call `device.close()`: releases the handle if one is held, and is a no-op
on a port that holds none. -/
def close (device : Port) (ctx : Backend) : Port × Backend :=
  if device.isOpen then
    ({ device with isOpen := false },
     { ctx with held := ctx.held - 1, released := ctx.released + 1 })
  else (device, ctx)

/-- The destructor of `serial_port`: a port that still holds its handle releases
it. -/
def destroy (device : Port) (ctx : Backend) : Backend := (close device ctx).2

/-- The call `std::string::find(pat)` from position 0; `none` is `npos`. -/
def find : Bytes → Bytes → Option Nat
  | [], pat => if pat = [] then some 0 else none
  | c :: cs, pat =>
    if pat.isPrefixOf (c :: cs) then some 0
    else (find cs pat).map (· + 1)

/-! ## `serial.hpp` -/

/-- `Serial::openSerialPort`. -/
def openSerialPort (port : Bytes) (ctx : Backend) : Except ErrorCode Port × Backend :=
  let device := closedPort
  let r := serial_port_open device port ctx
  match r.1 with
  | some err => (.error err, destroy r.2.1 r.2.2)
  | none => (.ok r.2.1, r.2.2)

/-- `Serial::readFromSerialPort`. -/
def readFromSerialPort (port : Port) : Option (Except ErrorCode Bytes × Port) :=
  match read_until port.isOpen port.rx [] with
  | none => none
  | some (_, err, buf, rx) =>
    match err with
    | some ec => some (.error ec, { port with rx := rx })
    | none => some (.ok buf, { port with rx := rx })

/-- `Serial::writeToSerialPort`. -/
def writeToSerialPort (port : Port) (msg : Bytes) : Except ErrorCode Bool × Port :=
  let r := write port.isOpen port.tx msg
  let port1 := { port with tx := r.2.2, sent := port.sent ++ r.2.1 }
  match r.1 with
  | some ec => (.error ec, port1)
  | none => (.ok true, port1)

/-! ## Port enumeration -/

/-- One step of a `std::filesystem::directory_iterator`: the next entry (its file
name), or a failure of the underlying directory read, which the iterator reports
by throwing `filesystem_error`. -/
inductive DirEvent
  | entry (name : Bytes)
  | error (ec : ErrorCode)
deriving DecidableEq, Repr

/-- The directory `/dev` as `directory_iterator("/dev")` sees it: the constructor
fails (and throws), or the directory is opened and yields a sequence of steps. -/
inductive DirListing
  | openFailed (ec : ErrorCode)
  | opened (steps : List DirEvent)
deriving DecidableEq, Repr

/-- The string `"/dev/"`: `entry.path()` is the iterated directory joined with
the file name of the entry. -/
def devDir : Bytes := ['/', 'd', 'e', 'v', '/']

/-- The string `"tty"`. -/
def tty : Bytes := ['t', 't', 'y']

namespace Linux

/-- The range-for loop of the Linux `Serial::listSerialPorts`; `ports` is the
vector built so far.  `Except.error` is an exception leaving the function. -/
def listLoop : List DirEvent → List Bytes → Except ErrorCode (List Bytes)
  | [], ports => .ok ports
  | .error ec :: _, _ => .error ec
  | .entry name :: rest, ports =>
    let path := devDir ++ name
    if find path tty ≠ none then listLoop rest (ports ++ [path])
    else listLoop rest ports

/-- The Linux `Serial::listSerialPorts`.  `Except.error` is the
`filesystem_error` that propagates to the caller. -/
def listSerialPorts (dev : DirListing) : Except ErrorCode (List Bytes) :=
  match dev with
  | .openFailed ec => .error ec
  | .opened steps => listLoop steps []

end Linux

namespace Windows

/-- The `for` loop of the Windows `Serial::listSerialPorts` over the device nodes
that `SetupDiEnumDeviceInfo` yields; each node carries the outcome of
`SetupDiGetDeviceRegistryProperty` for its friendly name (`none` when the call
fails). -/
def listLoop : List (Option Bytes) → List Bytes → List Bytes
  | [], ports => ports
  | some buffer :: rest, ports => listLoop rest (ports ++ [buffer])
  | none :: rest, ports => listLoop rest ports

/-- The Windows `Serial::listSerialPorts`.  The argument is the result of
`SetupDiGetClassDevs`: `none` is `INVALID_HANDLE_VALUE`. -/
def listSerialPorts (device_info_set : Option (List (Option Bytes))) : List Bytes :=
  match device_info_set with
  | none => []
  | some nodes => listLoop nodes []

end Windows

/-! ## `main.cpp` -/

/-- Split `bytes` into chunks of the given sizes; what is left when the sizes run
out is one last chunk. -/
def chunks : List Nat → Bytes → List Bytes
  | [], bytes => if bytes = [] then [] else [bytes]
  | n :: sizes, bytes => bytes.take n :: chunks sizes (bytes.drop n)

/-- A loopback line: everything the transport has accepted from the writer is
delivered to the reader, split into chunks of the given sizes. -/
def loopback (port : Port) (sizes : List Nat) : Port :=
  { port with rx := port.rx ++ (chunks sizes port.sent).map ReadEvent.data }

/-- An open port on an idle loopback line whose transport answers the first
`write_some` calls by accepting the given numbers of bytes. -/
def loopbackPort (accepts : List Nat) : Port :=
  { isOpen := true, rx := [], tx := accepts.map WriteEvent.accept, sent := [] }

/-- The device of the demonstration scenario: a port named `COM11` that answers
with the line `red` and accepts whatever is written to it. -/
def com11 : Device :=
  { name := ['C', 'O', 'M', '1', '1'], openError := none,
    rx := [ReadEvent.data ['r', 'e', 'd', '\n']], tx := [] }

/-- A backend that knows the device `COM11` and holds no handle. -/
def mockBackend : Backend := { devices := [com11], held := 0, released := 0 }

/-- The code reported by a failed directory read (EIO). -/
def io_error : ErrorCode := ⟨.system, 5⟩

/-! ## Facts about `read_until` -/

theorem read_until_of_mem (isOpen : Bool) (rx : List ReadEvent) (buf : Bytes)
    (h : delim ∈ buf) :
    read_until isOpen rx buf = some (delimEnd buf, none, buf, rx) := by
  rcases rx with _ | ⟨_ | _, _⟩ <;> simp [read_until, h]

theorem read_until_closed (rx : List ReadEvent) (buf : Bytes) (h : delim ∉ buf) :
    read_until false rx buf = some (0, some bad_descriptor, buf, rx) := by
  rcases rx with _ | ⟨_ | _, _⟩ <;> simp [read_until, h]

theorem read_until_data (rx : List ReadEvent) (buf chunk : Bytes) (h : delim ∉ buf) :
    read_until true (.data chunk :: rx) buf = read_until true rx (buf ++ chunk) := by
  rw [read_until]; simp [h]

theorem read_until_fault (rx : List ReadEvent) (buf : Bytes) (ec : ErrorCode)
    (h : delim ∉ buf) :
    read_until true (.fault ec :: rx) buf = some (0, some ec, buf, rx) := by
  rw [read_until]; simp [h]

theorem read_until_nil (buf : Bytes) (h : delim ∉ buf) :
    read_until true [] buf = none := by
  rw [read_until]; simp [h]

/-- A successful `read_until` consumed a run of data chunks, stopped at the first
one that completed a delimiter, and left everything it consumed in the buffer. -/
theorem read_until_ok_elim (isOpen : Bool) :
    ∀ (rx : List ReadEvent) (buf : Bytes) (n : Nat) (out : Bytes) (rest : List ReadEvent),
      delim ∉ buf → read_until isOpen rx buf = some (n, none, out, rest) →
      isOpen = true ∧ ∃ cs : List Bytes, rx = cs.map ReadEvent.data ++ rest ∧
        out = buf ++ cs.flatten ∧ delim ∈ out ∧ delim ∉ buf ++ cs.dropLast.flatten ∧
        n = delimEnd out := by
  cases isOpen with
  | false =>
    intro rx buf n out rest hb h
    rw [read_until_closed rx buf hb] at h
    simp at h
  | true =>
    intro rx
    induction rx with
    | nil =>
      intro buf n out rest hb h
      rw [read_until_nil buf hb] at h
      simp at h
    | cons e rx ih =>
      intro buf n out rest hb h
      cases e with
      | fault ec =>
        rw [read_until_fault rx buf ec hb] at h
        simp at h
      | data chunk =>
        rw [read_until_data rx buf chunk hb] at h
        by_cases hc : delim ∈ buf ++ chunk
        · rw [read_until_of_mem true rx _ hc] at h
          simp only [Option.some.injEq, Prod.mk.injEq, true_and] at h
          obtain ⟨hn, hout, hrest⟩ := h
          subst hout hrest
          refine ⟨rfl, [chunk], by simp, by simp, hc, by simpa using hb, hn.symm⟩
        · obtain ⟨-, cs, hrx, hout, hmem, hnot, hn⟩ := ih (buf ++ chunk) n out rest hc h
          have hne : cs ≠ [] := by
            rintro rfl
            simp at hout
            exact hc (hout ▸ hmem)
          refine ⟨rfl, chunk :: cs, by simp [hrx], by simp [hout], hmem, ?_, hn⟩
          rw [List.dropLast_cons_of_ne_nil hne]
          simpa [List.append_assoc] using hnot

/-- Conversely, a run of data chunks whose last one completes the first delimiter
makes `read_until` succeed with exactly those chunks in the buffer. -/
theorem read_until_ok_intro :
    ∀ (cs : List Bytes) (buf : Bytes) (rest : List ReadEvent),
      delim ∈ buf ++ cs.flatten → delim ∉ buf ++ cs.dropLast.flatten →
      read_until true (cs.map ReadEvent.data ++ rest) buf =
        some (delimEnd (buf ++ cs.flatten), none, buf ++ cs.flatten, rest) := by
  intro cs
  induction cs with
  | nil =>
    intro buf rest h1 h2
    simp at h1 h2
    exact absurd h1 h2
  | cons c cs ih =>
    intro buf rest h1 h2
    by_cases hne : cs = []
    · subst hne
      have hb : delim ∉ buf := by simpa using h2
      simp only [List.map_cons, List.map_nil, List.cons_append, List.nil_append]
      rw [read_until_data rest buf c hb]
      simp only [List.flatten_cons, List.flatten_nil, List.append_nil] at h1 ⊢
      exact read_until_of_mem true rest _ h1
    · rw [List.dropLast_cons_of_ne_nil hne] at h2
      have hb : delim ∉ buf := by
        intro hb; exact h2 (by simp [hb])
      simp only [List.map_cons, List.cons_append]
      rw [read_until_data _ buf c hb]
      have := ih (buf ++ c) rest (by simpa [List.append_assoc] using h1)
        (by simpa [List.append_assoc] using h2)
      simpa [List.append_assoc] using this

/-- A failed `read_until` on an open port consumed a run of data chunks without a
delimiter and then the fault it reports. -/
theorem read_until_err_elim :
    ∀ (rx : List ReadEvent) (buf : Bytes) (n : Nat) (ec : ErrorCode) (out : Bytes)
      (rest : List ReadEvent),
      read_until true rx buf = some (n, some ec, out, rest) →
      ∃ cs : List Bytes, rx = cs.map ReadEvent.data ++ ReadEvent.fault ec :: rest ∧
        delim ∉ buf ++ cs.flatten := by
  intro rx
  induction rx with
  | nil =>
    intro buf n ec out rest h
    by_cases hb : delim ∈ buf
    · rw [read_until_of_mem true _ buf hb] at h; simp at h
    · rw [read_until_nil buf hb] at h; simp at h
  | cons e rx ih =>
    intro buf n ec out rest h
    by_cases hb : delim ∈ buf
    · rw [read_until_of_mem true _ buf hb] at h; simp at h
    · cases e with
      | fault ec1 =>
        rw [read_until_fault rx buf ec1 hb] at h
        simp only [Option.some.injEq, Prod.mk.injEq] at h
        obtain ⟨-, hec, -, hrest⟩ := h
        subst hec hrest
        exact ⟨[], by simp, by simpa using hb⟩
      | data chunk =>
        rw [read_until_data rx buf chunk hb] at h
        obtain ⟨cs, hrx, hnot⟩ := ih (buf ++ chunk) n ec out rest h
        exact ⟨chunk :: cs, by simp [hrx], by simpa [List.append_assoc] using hnot⟩

/-- Conversely, a fault that arrives before any delimiter makes `read_until` fail
with the code of that fault. -/
theorem read_until_err_intro :
    ∀ (cs : List Bytes) (buf : Bytes) (ec : ErrorCode) (rest : List ReadEvent),
      delim ∉ buf ++ cs.flatten →
      read_until true (cs.map ReadEvent.data ++ ReadEvent.fault ec :: rest) buf =
        some (0, some ec, buf ++ cs.flatten, rest) := by
  intro cs
  induction cs with
  | nil =>
    intro buf ec rest h
    have hb : delim ∉ buf := by simpa using h
    simpa using read_until_fault rest buf ec hb
  | cons c cs ih =>
    intro buf ec rest h
    have hb : delim ∉ buf := by
      intro hb; exact h (by simp [hb])
    simp only [List.map_cons, List.cons_append]
    rw [read_until_data _ buf c hb]
    have := ih (buf ++ c) ec rest (by simpa [List.append_assoc] using h)
    simpa [List.append_assoc] using this

/-! ## Reading -/

/-- C10: a call of `readFromSerialPort` succeeds with `r`, leaving the port in
state `port1`, exactly when the port is open and the transport script starts with
a run of data chunks `cs` such that `r` is the concatenation of all of them (the
buffer starts empty), `r` contains the delimiter, the chunks before the last one
together contain no delimiter (the loop stops at the first chunk that completes
one), and the script left for later calls is what follows those chunks: every
byte taken from the transport, bytes after the delimiter included, is in `r` and
none of them is offered again. -/
theorem C10_read_returns_all_consumed_chunks (port port1 : Port) (r : Bytes) :
    readFromSerialPort port = some (.ok r, port1) ↔
      port.isOpen = true ∧ ∃ (cs : List Bytes) (rest : List ReadEvent),
        port.rx = cs.map ReadEvent.data ++ rest ∧ r = cs.flatten ∧ delim ∈ r ∧
        delim ∉ cs.dropLast.flatten ∧ (∀ c ∈ cs.dropLast, delim ∉ c) ∧
        port1 = { port with rx := rest } := by
  constructor
  · intro h
    unfold readFromSerialPort at h
    cases hr : read_until port.isOpen port.rx [] with
    | none => simp [hr] at h
    | some q =>
      obtain ⟨n, err, buf, rx⟩ := q
      cases err with
      | some ec => simp [hr] at h
      | none =>
        simp only [hr, Option.some.injEq, Prod.mk.injEq, Except.ok.injEq] at h
        obtain ⟨hbuf, hport⟩ := h
        obtain ⟨ho, cs, hrx, hout, hmem, hnot, -⟩ :=
          read_until_ok_elim port.isOpen port.rx [] n buf rx (by simp) hr
        simp only [List.nil_append] at hout hnot
        refine ⟨ho, cs, rx, hrx, ?_, ?_, hnot, ?_, hport.symm⟩
        · rw [← hbuf, hout]
        · rw [← hbuf]; exact hmem
        · intro c hc hd
          exact hnot (List.mem_flatten.mpr ⟨c, hc, hd⟩)
  · rintro ⟨ho, cs, rest, hrx, hr, hmem, hnot, -, hport⟩
    have := read_until_ok_intro cs [] rest (by simpa [← hr] using hmem) (by simpa using hnot)
    obtain ⟨o, rx0, tx0, sent0⟩ := port
    simp only at ho hrx hport
    subst ho hrx
    unfold readFromSerialPort
    simp only [this]
    simp [hr, hport]

/-- C4: a call of `readFromSerialPort` returns the error `ec`, leaving the port in
state `port1`, exactly when a fault with code `ec` is reported before any
delimiter has been received: either the port holds no handle, the first
`read_some` reports `bad_descriptor` and the port is unchanged, or the port is
open and the transport script starts with data chunks `cs` free of the delimiter
followed by the fault `ec`.  The code is passed on unchanged, and the bytes of
`cs` are gone: the result carries none and the script left for later calls starts
after the fault. -/
theorem C4_read_error_iff_fault_before_delimiter (port port1 : Port) (ec : ErrorCode) :
    readFromSerialPort port = some (.error ec, port1) ↔
      (port.isOpen = false ∧ ec = bad_descriptor ∧ port1 = port) ∨
      (port.isOpen = true ∧ ∃ (cs : List Bytes) (rest : List ReadEvent),
        port.rx = cs.map ReadEvent.data ++ ReadEvent.fault ec :: rest ∧
        delim ∉ cs.flatten ∧ port1 = { port with rx := rest }) := by
  constructor
  · intro h
    unfold readFromSerialPort at h
    cases ho : port.isOpen with
    | false =>
      rw [ho, read_until_closed port.rx [] (by simp)] at h
      simp only [Option.some.injEq, Prod.mk.injEq, Except.error.injEq] at h
      refine Or.inl ⟨rfl, h.1.symm, ?_⟩
      obtain ⟨o, rx0, tx0, sent0⟩ := port
      simp only at ho
      subst ho
      exact h.2.symm
    | true =>
      rw [ho] at h
      cases hr : read_until true port.rx [] with
      | none => simp [hr] at h
      | some q =>
        obtain ⟨n, err, buf, rx⟩ := q
        cases err with
        | none => simp [hr] at h
        | some ec1 =>
          simp only [hr, Option.some.injEq, Prod.mk.injEq, Except.error.injEq] at h
          obtain ⟨hec, hport⟩ := h
          subst hec
          obtain ⟨cs, hrx, hnot⟩ := read_until_err_elim port.rx [] n ec1 buf rx hr
          exact Or.inr ⟨rfl, cs, rx, hrx, by simpa using hnot, hport.symm⟩
  · rintro (⟨ho, hec, hport⟩ | ⟨ho, cs, rest, hrx, hnot, hport⟩)
    · obtain ⟨o, rx0, tx0, sent0⟩ := port
      simp only at ho
      subst ho
      unfold readFromSerialPort
      simp only [read_until_closed rx0 [] (by simp)]
      simp [hec, hport]
    · have := read_until_err_intro cs [] ec rest (by simpa using hnot)
      obtain ⟨o, rx0, tx0, sent0⟩ := port
      simp only at ho hrx hport
      subst ho hrx
      unfold readFromSerialPort
      simp only [this]
      simp [hport]

/-- C2: on an open port whose transport delivers the three bytes `a`, newline, `b`
in one chunk, the library reports that the line ends after 2 bytes, and
`readFromSerialPort` returns all 3 bytes: the byte `b` that follows the first
delimiter is part of the result, the delimiter is not the last byte, and nothing
is left for the next call. -/
theorem C2_read_returns_bytes_after_first_delimiter :
    read_until true [ReadEvent.data ['a', '\n', 'b']] [] =
        some (2, none, ['a', '\n', 'b'], []) ∧
      readFromSerialPort
          { isOpen := true, rx := [ReadEvent.data ['a', '\n', 'b']], tx := [], sent := [] } =
        some (.ok ['a', '\n', 'b'], { isOpen := true, rx := [], tx := [], sent := [] }) ∧
      (['a', '\n', 'b'] : Bytes) ≠ ['a', '\n'] ∧
      (['a', '\n', 'b'] : Bytes).getLast? ≠ some delim := by
  decide

/-! ## Facts about `write` -/

theorem write_nil_msg (isOpen : Bool) (tx : List WriteEvent) :
    write isOpen tx [] = (none, [], tx) := by
  rcases tx with _ | ⟨_ | _, _⟩ <;> simp [write]

theorem write_closed (tx : List WriteEvent) (rest : Bytes) (h : rest ≠ []) :
    write false tx rest = (some bad_descriptor, [], tx) := by
  rcases tx with _ | ⟨_ | _, _⟩ <;> simp [write, h]

theorem write_nil_tx (rest : Bytes) : write true [] rest = (none, rest, []) := by
  by_cases h : rest = []
  · subst h; simp [write]
  · simp [write, h]

theorem write_fault (tx : List WriteEvent) (rest : Bytes) (ec : ErrorCode) (h : rest ≠ []) :
    write true (.fault ec :: tx) rest = (some ec, [], tx) := by
  simp [write, h]

theorem write_accept (tx : List WriteEvent) (rest : Bytes) (n : Nat) (h : rest ≠ []) :
    write true (.accept n :: tx) rest =
      ((write true tx (rest.drop n)).1, rest.take n ++ (write true tx (rest.drop n)).2.1,
        (write true tx (rest.drop n)).2.2) := by
  rw [write]; simp [h]

/-- The bytes `write` hands to the transport are a prefix of the message, and the
call reports no error exactly when that prefix is the whole message. -/
theorem write_delivered (isOpen : Bool) :
    ∀ (tx : List WriteEvent) (rest : Bytes),
      (write isOpen tx rest).2.1 <+: rest ∧
        ((write isOpen tx rest).1 = none ↔ (write isOpen tx rest).2.1 = rest) := by
  intro tx
  induction tx with
  | nil =>
    intro rest
    by_cases h : rest = []
    · subst h; simp [write_nil_msg]
    · cases isOpen with
      | false => simp [write_closed _ _ h, Ne.symm h]
      | true => simp [write_nil_tx]
  | cons e tx ih =>
    intro rest
    by_cases h : rest = []
    · subst h; simp [write_nil_msg]
    · cases isOpen with
      | false => simp [write_closed _ _ h, Ne.symm h]
      | true =>
        cases e with
        | fault ec => simp [write_fault _ _ _ h, Ne.symm h]
        | accept n =>
          obtain ⟨hp, hiff⟩ := ih (rest.drop n)
          rw [write_accept _ _ _ h]
          constructor
          · obtain ⟨t, ht⟩ := hp
            refine ⟨t, ?_⟩
            simp only [List.append_assoc, ht, List.take_append_drop]
          · simp only
            rw [hiff]
            constructor
            · intro hd
              rw [hd, List.take_append_drop]
            · intro hd
              exact List.append_cancel_left (hd.trans (List.take_append_drop n rest).symm)

/-- On an open port `write` reports the error `ec` exactly when the script
answers with `accept` events that together take fewer bytes than the message has,
and then with the fault `ec`. -/
theorem write_error_iff :
    ∀ (tx : List WriteEvent) (rest : Bytes) (ec : ErrorCode),
      (write true tx rest).1 = some ec ↔
        ∃ (ns : List Nat) (tx1 : List WriteEvent),
          tx = ns.map WriteEvent.accept ++ WriteEvent.fault ec :: tx1 ∧
            ns.sum < rest.length := by
  intro tx
  induction tx with
  | nil =>
    intro rest ec
    simp [write_nil_tx]
  | cons e tx ih =>
    intro rest ec
    by_cases h : rest = []
    · subst h; simp [write_nil_msg]
    · have hpos : 0 < rest.length := List.length_pos.mpr h
      cases e with
      | fault ec1 =>
        rw [write_fault _ _ _ h]
        constructor
        · intro he
          simp only [Option.some.injEq] at he
          subst he
          exact ⟨[], tx, by simp, by simpa using hpos⟩
        · rintro ⟨ns, tx1, htx, -⟩
          cases ns with
          | nil => simp at htx; simp [htx.1]
          | cons n ns => simp at htx
      | accept n =>
        rw [write_accept _ _ _ h]
        simp only
        rw [ih]
        constructor
        · rintro ⟨ns, tx1, htx, hlt⟩
          refine ⟨n :: ns, tx1, by simp [htx], ?_⟩
          simp only [List.length_drop] at hlt
          simp only [List.sum_cons]
          omega
        · rintro ⟨ns, tx1, htx, hlt⟩
          cases ns with
          | nil => simp at htx
          | cons m ns =>
            simp only [List.map_cons, List.cons_append, List.cons.injEq,
              WriteEvent.accept.injEq] at htx
            obtain ⟨hm, htx⟩ := htx
            subst hm
            refine ⟨ns, tx1, htx, ?_⟩
            simp only [List.sum_cons] at hlt
            simp only [List.length_drop]
            omega

/-- A script that only accepts never makes `write` fail. -/
theorem write_accepts_only (ns : List Nat) (rest : Bytes) :
    (write true (ns.map WriteEvent.accept) rest).1 = none ∧
      (write true (ns.map WriteEvent.accept) rest).2.1 = rest := by
  have hnone : (write true (ns.map WriteEvent.accept) rest).1 = none := by
    cases he : (write true (ns.map WriteEvent.accept) rest).1 with
    | none => rfl
    | some ec =>
      obtain ⟨ms, tx1, htx, -⟩ := (write_error_iff _ rest ec).mp he
      have hmem : WriteEvent.fault ec ∈ ns.map WriteEvent.accept := by
        rw [htx]; simp
      simp at hmem
  exact ⟨hnone, ((write_delivered true _ rest).2).mp hnone⟩

/-! ## Writing -/

theorem writeToSerialPort_result (port : Port) (msg : Bytes) :
    (writeToSerialPort port msg).1 =
      (match (write port.isOpen port.tx msg).1 with
        | some ec => Except.error ec
        | none => Except.ok true) := by
  unfold writeToSerialPort
  generalize write port.isOpen port.tx msg = r
  obtain ⟨e, d, t⟩ := r
  cases e <;> rfl

theorem writeToSerialPort_state (port : Port) (msg : Bytes) :
    (writeToSerialPort port msg).2 =
      { port with tx := (write port.isOpen port.tx msg).2.2,
                  sent := port.sent ++ (write port.isOpen port.tx msg).2.1 } := by
  unfold writeToSerialPort
  generalize write port.isOpen port.tx msg = r
  obtain ⟨e, d, t⟩ := r
  cases e <;> rfl

/-- C3: for every port state and every message, `writeToSerialPort` never returns
the value `false`; the bytes it hands to the transport are a prefix `d` of the
message, appended in order to what the transport had before, and the result is
`true` exactly when `d` is the whole message; the result is the error `ec` exactly
when a `write_some` call reports `ec` while bytes remain: the port holds no handle
and the message is not empty (`bad_descriptor`), or the transport first accepts
fewer bytes than the message has and then reports the fault `ec`. -/
theorem C3_write_result_iff_all_bytes_accepted (port : Port) (msg : Bytes) :
    (writeToSerialPort port msg).1 ≠ .ok false ∧
    (∃ d : Bytes, d <+: msg ∧ (writeToSerialPort port msg).2.sent = port.sent ++ d ∧
      ((writeToSerialPort port msg).1 = .ok true ↔ d = msg)) ∧
    (∀ ec : ErrorCode, (writeToSerialPort port msg).1 = .error ec ↔
      (port.isOpen = false ∧ msg ≠ [] ∧ ec = bad_descriptor) ∨
      (port.isOpen = true ∧ ∃ (ns : List Nat) (tx1 : List WriteEvent),
        port.tx = ns.map WriteEvent.accept ++ WriteEvent.fault ec :: tx1 ∧
          ns.sum < msg.length)) := by
  obtain ⟨hp, hiff⟩ := write_delivered port.isOpen port.tx msg
  refine ⟨?_, ⟨(write port.isOpen port.tx msg).2.1, hp, ?_, ?_⟩, ?_⟩
  · rw [writeToSerialPort_result]
    cases (write port.isOpen port.tx msg).1 <;> simp
  · rw [writeToSerialPort_state]
  · rw [writeToSerialPort_result, ← hiff]
    cases (write port.isOpen port.tx msg).1 <;> simp
  · intro ec
    rw [writeToSerialPort_result]
    cases ho : port.isOpen with
    | false =>
      by_cases hm : msg = []
      · subst hm; simp [write_nil_msg]
      · simp [write_closed _ _ hm, hm, eq_comm]
    | true =>
      have := write_error_iff port.tx msg ec
      cases hw : (write true port.tx msg).1 with
      | none => simpa [hw] using this
      | some ec1 => simpa [hw] using this

/-- C5 (counterexample): on a port that was never opened, writing the empty
message returns the success value `true`, not an error. -/
theorem C5_empty_write_on_closed_port_succeeds :
    writeToSerialPort closedPort [] = (.ok true, closedPort) := by
  decide

/-- C5 (amended): on a port that holds no handle, `writeToSerialPort` with a
message that is not empty returns the error `bad_descriptor` and never a success
value, and `readFromSerialPort` returns the same error; neither call changes the
port, so repeating the call gives the same error again. -/
theorem C5_closed_port_calls_fail (port : Port) (msg : Bytes)
    (hclosed : port.isOpen = false) (hmsg : msg ≠ []) :
    writeToSerialPort port msg = (.error bad_descriptor, port) ∧
      readFromSerialPort port = some (.error bad_descriptor, port) ∧
      writeToSerialPort (writeToSerialPort port msg).2 msg = (.error bad_descriptor, port) ∧
      (readFromSerialPort port).bind (fun r => readFromSerialPort r.2) =
        some (.error bad_descriptor, port) := by
  obtain ⟨o, rx0, tx0, sent0⟩ := port
  simp only at hclosed
  subst hclosed
  have hw : writeToSerialPort { isOpen := false, rx := rx0, tx := tx0, sent := sent0 } msg =
      (.error bad_descriptor, { isOpen := false, rx := rx0, tx := tx0, sent := sent0 }) := by
    unfold writeToSerialPort
    simp [write_closed _ _ hmsg]
  have hr : readFromSerialPort { isOpen := false, rx := rx0, tx := tx0, sent := sent0 } =
      some (.error bad_descriptor, { isOpen := false, rx := rx0, tx := tx0, sent := sent0 }) := by
    unfold readFromSerialPort
    simp [read_until_closed rx0 [] (by simp)]
  refine ⟨hw, hr, ?_, ?_⟩
  · rw [hw]; exact hw
  · rw [hr]; exact hr

/-- C5 (witness): the amended statement at a never-opened port and the message
`red`. -/
theorem C5_closed_port_calls_fail_witness :
    closedPort.isOpen = false ∧ (['r', 'e', 'd'] : Bytes) ≠ [] ∧
      writeToSerialPort closedPort ['r', 'e', 'd'] = (.error bad_descriptor, closedPort) ∧
      readFromSerialPort closedPort = some (.error bad_descriptor, closedPort) :=
  ⟨rfl, by decide,
    (C5_closed_port_calls_fail closedPort ['r', 'e', 'd'] rfl (by decide)).1,
    (C5_closed_port_calls_fail closedPort ['r', 'e', 'd'] rfl (by decide)).2.1⟩

/-! ## Write followed by read on a loopback line -/

/-- Reading a line that ends in its only delimiter, however the transport splits
it, fills the buffer with exactly that line. -/
theorem read_until_chunks :
    ∀ (sizes : List Nat) (q buf : Bytes) (rest : List ReadEvent),
      delim ∉ buf → delim ∉ q →
      ∃ rest1 : List ReadEvent,
        read_until true ((chunks sizes (q ++ [delim])).map ReadEvent.data ++ rest) buf =
          some (delimEnd (buf ++ (q ++ [delim])), none, buf ++ (q ++ [delim]), rest1) := by
  intro sizes
  induction sizes with
  | nil =>
    intro q buf rest hb _
    refine ⟨rest, ?_⟩
    simp only [chunks, List.append_eq_nil, List.cons_ne_self, and_false, if_false,
      List.map_cons, List.map_nil, List.cons_append, List.nil_append]
    rw [read_until_data _ buf _ hb]
    exact read_until_of_mem true _ _ (by simp)
  | cons n sizes ih =>
    intro q buf rest hb hq
    simp only [chunks, List.map_cons, List.cons_append]
    rw [read_until_data _ buf _ hb]
    by_cases hn : n ≤ q.length
    · rw [List.take_append_of_le_length hn, List.drop_append_of_le_length hn]
      have hb1 : delim ∉ buf ++ List.take n q := by
        intro hmem
        rcases List.mem_append.mp hmem with h | h
        · exact hb h
        · exact hq (List.mem_of_mem_take h)
      have hq1 : delim ∉ List.drop n q := fun h => hq (List.mem_of_mem_drop h)
      obtain ⟨rest1, h1⟩ := ih (List.drop n q) (buf ++ List.take n q) rest hb1 hq1
      refine ⟨rest1, ?_⟩
      rw [h1]
      have he : buf ++ List.take n q ++ (List.drop n q ++ [delim]) = buf ++ (q ++ [delim]) := by
        rw [List.append_assoc, ← List.append_assoc (List.take n q), List.take_append_drop]
      rw [he]
    · have hall : List.take n (q ++ [delim]) = q ++ [delim] :=
        List.take_of_length_le (by simp; omega)
      rw [hall]
      exact ⟨_, read_until_of_mem true _ _ (by simp)⟩

/-- C1: on an idle loopback line, for every payload `p` without a delimiter, every
way the transport takes the bytes from the writer and every way it splits them for
the reader, `writeToSerialPort` of `p` followed by the delimiter returns `true`
with exactly those bytes handed to the transport, and the `readFromSerialPort`
that follows returns exactly `p` followed by the delimiter. -/
theorem C1_loopback_write_then_read (p : Bytes) (accepts sizes : List Nat)
    (hp : delim ∉ p) :
    (writeToSerialPort (loopbackPort accepts) (p ++ [delim])).1 = .ok true ∧
      (writeToSerialPort (loopbackPort accepts) (p ++ [delim])).2.sent = p ++ [delim] ∧
      ∃ port2 : Port,
        readFromSerialPort
            (loopback (writeToSerialPort (loopbackPort accepts) (p ++ [delim])).2 sizes) =
          some (.ok (p ++ [delim]), port2) := by
  obtain ⟨hnone, hall⟩ := write_accepts_only accepts (p ++ [delim])
  have hres := writeToSerialPort_result (loopbackPort accepts) (p ++ [delim])
  have hst := writeToSerialPort_state (loopbackPort accepts) (p ++ [delim])
  have hp0 : (loopbackPort accepts).isOpen = true := rfl
  have hp1 : (loopbackPort accepts).tx = accepts.map WriteEvent.accept := rfl
  have hp2 : (loopbackPort accepts).sent = [] := rfl
  have hp3 : (loopbackPort accepts).rx = [] := rfl
  rw [hp0, hp1, hnone] at hres
  rw [hp0, hp1, hp2, hall, List.nil_append] at hst
  refine ⟨hres, by rw [hst], ?_⟩
  obtain ⟨rest1, h1⟩ := read_until_chunks sizes p [] [] (by simp) hp
  rw [hst]
  unfold readFromSerialPort loopback
  simp only [List.nil_append, List.append_nil, hp0, hp3] at h1 ⊢
  rw [h1]
  exact ⟨_, rfl⟩

/-- C1 (witness): the payload `red`, taken by the transport two bytes at a time
and delivered to the reader in chunks of one and two bytes. -/
theorem C1_loopback_write_then_read_witness :
    delim ∉ (['r', 'e', 'd'] : Bytes) ∧
      (writeToSerialPort (loopbackPort [2, 2]) (['r', 'e', 'd'] ++ [delim])).1 = .ok true ∧
      (writeToSerialPort (loopbackPort [2, 2]) (['r', 'e', 'd'] ++ [delim])).2.sent =
        ['r', 'e', 'd'] ++ [delim] ∧
      ∃ port2 : Port,
        readFromSerialPort
            (loopback (writeToSerialPort (loopbackPort [2, 2]) (['r', 'e', 'd'] ++ [delim])).2
              [1, 2]) =
          some (.ok (['r', 'e', 'd'] ++ [delim]), port2) :=
  ⟨by decide, C1_loopback_write_then_read ['r', 'e', 'd'] [2, 2] [1, 2] (by decide)⟩

/-! ## Opening -/

theorem serial_port_open_fresh (port : Bytes) (ctx : Backend) :
    serial_port_open closedPort port ctx =
      (match ctx.devices.find? (fun d => d.name == port) with
        | none => (some no_such_file_or_directory, closedPort, ctx)
        | some d =>
          match d.openError with
          | some ec => (some ec, closedPort, ctx)
          | none =>
            (none, { isOpen := true, rx := d.rx, tx := d.tx, sent := [] },
              { ctx with held := ctx.held + 1 })) := by
  unfold serial_port_open closedPort
  rfl

theorem openSerialPort_eq (port : Bytes) (ctx : Backend) :
    openSerialPort port ctx =
      (match ctx.devices.find? (fun d => d.name == port) with
        | none => (.error no_such_file_or_directory, ctx)
        | some d =>
          match d.openError with
          | some ec => (.error ec, ctx)
          | none =>
            (.ok { isOpen := true, rx := d.rx, tx := d.tx, sent := [] },
              { ctx with held := ctx.held + 1 })) := by
  unfold openSerialPort
  simp only [serial_port_open_fresh]
  cases ctx.devices.find? (fun d => d.name == port) with
  | none => rfl
  | some d =>
    cases hd : d.openError with
    | none => simp only [hd]
    | some ec => simp only [hd]; rfl

/-- C7: `openSerialPort` returns the error `ec` exactly when the `open` call on
the fresh `serial_port` reports `ec`, that is, when no device has the given name
and `ec` is the "no such file or directory" code, or the device of that name
refuses to be opened with `ec`.  A name that refers to no device always gives the
"no such file or directory" error.  Whenever the result is an error the backend is
left as it was (no handle is held, none was released).  When the result is a port,
the port is open and holds the one handle that was acquired. -/
theorem C7_open_fails_iff_device_open_fails (port : Bytes) (ctx : Backend) :
    (∀ ec : ErrorCode, (openSerialPort port ctx).1 = .error ec ↔
      (serial_port_open closedPort port ctx).1 = some ec) ∧
    (∀ ec : ErrorCode, (openSerialPort port ctx).1 = .error ec ↔
      (ctx.devices.find? (fun d => d.name == port) = none ∧
        ec = no_such_file_or_directory) ∨
      (∃ d : Device, ctx.devices.find? (fun d => d.name == port) = some d ∧
        d.openError = some ec)) ∧
    ((∀ d ∈ ctx.devices, d.name ≠ port) →
      openSerialPort port ctx = (.error no_such_file_or_directory, ctx)) ∧
    (∀ ec : ErrorCode, (openSerialPort port ctx).1 = .error ec →
      (openSerialPort port ctx).2 = ctx) ∧
    (∀ device : Port, (openSerialPort port ctx).1 = .ok device →
      device.isOpen = true ∧ (openSerialPort port ctx).2.held = ctx.held + 1 ∧
        (openSerialPort port ctx).2.released = ctx.released) := by
  have h1 := openSerialPort_eq port ctx
  have h2 := serial_port_open_fresh port ctx
  cases hf : ctx.devices.find? (fun d => d.name == port) with
  | none =>
    simp only [hf] at h1 h2
    rw [h1, h2]
    refine ⟨?_, ?_, ?_, ?_, ?_⟩
    · intro ec; simp
    · intro ec
      constructor
      · intro h
        simp only [Except.error.injEq] at h
        exact Or.inl ⟨rfl, h.symm⟩
      · rintro (⟨-, h⟩ | ⟨d, h, -⟩)
        · rw [h]
        · exact absurd h (by simp)
    · intro _; rfl
    · intro ec _; rfl
    · intro device h; simp at h
  | some d =>
    have hd := List.find?_some hf
    have hmem := List.mem_of_find?_eq_some hf
    simp only [beq_iff_eq] at hd
    simp only [hf] at h1 h2
    cases ho : d.openError with
    | none =>
      simp only [ho] at h1 h2
      rw [h1, h2]
      refine ⟨?_, ?_, ?_, ?_, ?_⟩
      · intro ec; simp
      · intro ec
        constructor
        · intro h; simp at h
        · rintro (⟨h, -⟩ | ⟨d1, h, h3⟩)
          · simp at h
          · simp only [Option.some.injEq] at h
            subst h
            rw [ho] at h3
            simp at h3
      · intro h; exact absurd hd (h d hmem)
      · intro ec h; simp at h
      · intro device h
        simp only [Except.ok.injEq] at h
        subst h
        exact ⟨rfl, rfl, rfl⟩
    | some ec1 =>
      simp only [ho] at h1 h2
      rw [h1, h2]
      refine ⟨?_, ?_, ?_, ?_, ?_⟩
      · intro ec; simp
      · intro ec
        constructor
        · intro h
          simp only [Except.error.injEq] at h
          exact Or.inr ⟨d, rfl, by rw [ho, h]⟩
        · rintro (⟨h, -⟩ | ⟨d1, h, h3⟩)
          · simp at h
          · simp only [Option.some.injEq] at h
            subst h
            rw [ho] at h3
            simp only [Option.some.injEq] at h3
            rw [h3]
      · intro h; exact absurd hd (h d hmem)
      · intro ec _; rfl
      · intro device h; simp at h

/-! ## The session of `main` -/

/-- C8: when the device-class query returns an invalid handle the Windows
`listSerialPorts` returns the empty vector; when `/dev` cannot be opened, or a
later directory read fails, the Linux `listSerialPorts` returns nothing: the
`filesystem_error` leaves the function. -/
theorem C8_linux_listing_throws_on_query_failure :
    Windows.listSerialPorts none = [] ∧
      Linux.listSerialPorts (.openFailed permission_denied) = .error permission_denied ∧
      Linux.listSerialPorts
          (.opened [.entry ['t', 't', 'y', 'S', '0'], .error io_error]) = .error io_error := by
  decide

theorem find_found_iff (pat : Bytes) :
    ∀ s : Bytes, find s pat ≠ none ↔ pat <:+: s := by
  intro s
  induction s with
  | nil =>
    by_cases h : pat = [] <;> simp [find, h]
  | cons c cs ih =>
    rw [List.infix_cons_iff, ← ih, ← List.isPrefixOf_iff_prefix]
    by_cases h : pat.isPrefixOf (c :: cs) = true
    · simp [find, h]
    · simp [find, h]

/-- Looking for `tty` in the path of an entry of `/dev` finds it exactly when the
file name of the entry contains it. -/
theorem find_tty_devDir (name : Bytes) :
    find (devDir ++ name) tty ≠ none ↔ find name tty ≠ none := by
  simp [devDir, tty, find, List.isPrefixOf]

theorem listLoop_entries :
    ∀ (names : List Bytes) (ports : List Bytes),
      Linux.listLoop (names.map DirEvent.entry) ports =
        .ok (ports ++ (names.filter (fun n => decide (tty <:+: n))).map (devDir ++ ·)) := by
  intro names
  induction names with
  | nil => intro ports; simp [Linux.listLoop]
  | cons n names ih =>
    intro ports
    simp only [List.map_cons, Linux.listLoop]
    by_cases h : tty <:+: n
    · have hf : find (devDir ++ n) tty ≠ none :=
        (find_tty_devDir n).mpr ((find_found_iff tty n).mpr h)
      rw [if_pos hf, ih]
      simp [List.filter_cons, h]
    · have hf : ¬ find (devDir ++ n) tty ≠ none := fun hf =>
        h ((find_found_iff tty n).mp ((find_tty_devDir n).mp hf))
      rw [if_neg hf, ih]
      simp [List.filter_cons, h]

/-- C9: for every listing of `/dev` that the iterator reads without an error, the
Linux `listSerialPorts` returns the paths `/dev/` followed by the name, for
exactly the entries whose name contains `tty`, in listing order and with
repetitions kept; the test on the full path that the code performs selects the
same entries as a test on the name.  A listing without such an entry, and the
empty listing, give the empty vector. -/
theorem C9_linux_listing_selects_tty_names (names : List Bytes) :
    Linux.listSerialPorts (.opened (names.map DirEvent.entry)) =
        .ok ((names.filter (fun n => decide (tty <:+: n))).map (devDir ++ ·)) ∧
      (∀ name : Bytes, find (devDir ++ name) tty ≠ none ↔ tty <:+: name) ∧
      ((∀ n ∈ names, ¬ tty <:+: n) →
        Linux.listSerialPorts (.opened (names.map DirEvent.entry)) = .ok []) ∧
      Linux.listSerialPorts (.opened []) = .ok [] := by
  have hmain : Linux.listSerialPorts (.opened (names.map DirEvent.entry)) =
      .ok ((names.filter (fun n => decide (tty <:+: n))).map (devDir ++ ·)) := by
    unfold Linux.listSerialPorts
    simp only [listLoop_entries, List.nil_append]
  refine ⟨hmain, ?_, ?_, rfl⟩
  · intro name
    rw [find_tty_devDir, find_found_iff]
  · intro hnone
    rw [hmain]
    have : names.filter (fun n => decide (tty <:+: n)) = [] := by
      rw [List.filter_eq_nil_iff]
      intro n hn
      simpa using hnone n hn
    rw [this]
    rfl

/-! ## The statements at concrete inputs -/

/-- C10 (witness): the transport delivers `re`, then `d`, newline and `x` in one
chunk, then `y`; the call returns the first two chunks whole and leaves the third
for the next call. -/
theorem C10_read_returns_all_consumed_chunks_witness :
    readFromSerialPort
        { isOpen := true,
          rx := [ReadEvent.data ['r', 'e'], ReadEvent.data ['d', '\n', 'x'],
            ReadEvent.data ['y']],
          tx := [], sent := [] } =
      some (.ok ['r', 'e', 'd', '\n', 'x'],
        { isOpen := true, rx := [ReadEvent.data ['y']], tx := [], sent := [] }) :=
  (C10_read_returns_all_consumed_chunks _ _ _).mpr
    ⟨rfl, [['r', 'e'], ['d', '\n', 'x']], [ReadEvent.data ['y']], rfl, rfl, by decide,
      by decide, by decide, rfl⟩

/-- C4 (witness): the transport delivers `re` and then reports end of file; the
call returns that code and the two bytes are gone. -/
theorem C4_read_error_iff_fault_before_delimiter_witness :
    readFromSerialPort
        { isOpen := true,
          rx := [ReadEvent.data ['r', 'e'], ReadEvent.fault eof, ReadEvent.data ['d', '\n']],
          tx := [], sent := [] } =
      some (.error eof,
        { isOpen := true, rx := [ReadEvent.data ['d', '\n']], tx := [], sent := [] }) :=
  (C4_read_error_iff_fault_before_delimiter _ _ _).mpr
    (Or.inr ⟨rfl, [['r', 'e']], [ReadEvent.data ['d', '\n']], rfl, by decide, rfl⟩)

/-- C3 (witness): the transport takes two of the three bytes of `red` and then
reports an input/output error; the call returns that code. -/
theorem C3_write_result_iff_all_bytes_accepted_witness :
    (writeToSerialPort
        { isOpen := true, rx := [],
          tx := [WriteEvent.accept 2, WriteEvent.fault io_error], sent := [] }
        ['r', 'e', 'd']).1 = .error io_error :=
  ((C3_write_result_iff_all_bytes_accepted _ _).2.2 io_error).mpr
    (Or.inr ⟨rfl, [2], [], rfl, by decide⟩)

/-- C7 (witness): on the backend that only knows `COM11`, opening `TEST0` fails
with the "no such file or directory" code and leaves the backend as it was. -/
theorem C7_open_fails_iff_device_open_fails_witness :
    openSerialPort ['T', 'E', 'S', 'T', '0'] mockBackend =
      (.error no_such_file_or_directory, mockBackend) :=
  (C7_open_fails_iff_device_open_fails ['T', 'E', 'S', 'T', '0'] mockBackend).2.2.1
    (by decide)

/-- C9 (witness): a listing with `ttyS0` twice, `null` and `ptty1`. -/
theorem C9_linux_listing_selects_tty_names_witness :
    Linux.listSerialPorts
        (.opened [.entry ['t', 't', 'y', 'S', '0'], .entry ['n', 'u', 'l', 'l'],
          .entry ['t', 't', 'y', 'S', '0'], .entry ['p', 't', 't', 'y', '1']]) =
      .ok [['/', 'd', 'e', 'v', '/', 't', 't', 'y', 'S', '0'],
        ['/', 'd', 'e', 'v', '/', 't', 't', 'y', 'S', '0'],
        ['/', 'd', 'e', 'v', '/', 'p', 't', 't', 'y', '1']] :=
  (C9_linux_listing_selects_tty_names
    [['t', 't', 'y', 'S', '0'], ['n', 'u', 'l', 'l'], ['t', 't', 'y', 'S', '0'],
      ['p', 't', 't', 'y', '1']]).1.trans (by decide)

end Serial
